import Mathlib

/-!
Verification development for the Siamese/classifier training script
(`recognition/45813788_Siamese/train.py`).

The script is two sequential training loops (`siamese_train`, `classifier_train`).
We shallow-embed the orchestration logic: the numeric autodiff parts (forward
passes, gradients, optimizer updates) are opaque, so each epoch's externally
produced data (per-batch scalar losses, per-batch labels and sigmoid
probabilities, and the parameter state produced by that epoch's optimizer
steps) is an input to the embedded loop.  Floating-point scalars are modelled
as rationals; `float('inf')` is modelled as `Option ℚ` with `none = +∞` on the
best-loss record, and `np.nan` (an AUROC that failed to compute) as `Option ℚ`
with `none = NaN`.  The filesystem is a chronological write log plus an
association list of latest file contents.
-/

/-- Filesystem paths are plain strings. -/
abbrev FPath := String

/-- `os.path.join(a, b)` for the relative path components used by the script:
appends with a separator unless `a` already ends with one or is empty. -/
def osPathJoin (a b : FPath) : FPath :=
  if a = "" then b
  else if a.endsWith "/" then a ++ b
  else a ++ "/" ++ b

/-- A filesystem: association list from path to file contents (of type `P`,
the opaque parameter-state type of `state_dict()` blobs); the most recent
write for a path comes first. -/
def fsStore (P : Type) := List (FPath × P)

/-- `torch.save(v, p)`: record the new contents for path `p`. -/
def fsWrite {P : Type} (fs : List (FPath × P)) (p : FPath) (v : P) :
    List (FPath × P) :=
  (p, v) :: fs

/-- Contents currently stored at path `p` (latest write wins). -/
def fsRead {P : Type} (fs : List (FPath × P)) (p : FPath) : Option P :=
  (fs.find? (fun e => e.1 = p)).map (fun e => e.2)

/-- Python `avg = running_sum / len(loader)`: the mean of the per-batch
scalar losses, every batch weighted equally. -/
def meanLoss (losses : List ℚ) : ℚ :=
  losses.sum / (losses.length : ℚ)

/-- `avg_val_loss < best_loss` where `best_loss` was initialized to
`float('inf')` (`none`): every finite value is below `+∞`. -/
def pyLtInf (q : ℚ) (best : Option ℚ) : Bool :=
  match best with
  | none => true
  | some b => decide (q < b)

/-- `val_auroc > best_auroc` where `val_auroc` may be `np.nan` (`none`):
any comparison with NaN is false. -/
def pyGtNan (a : Option ℚ) (best : ℚ) : Bool :=
  match a with
  | none => false
  | some x => decide (best < x)

/-! ## Stage A: `siamese_train` -/

/-- Externally produced data of one epoch of `siamese_train`: the scalar
`loss.item()` of each training batch and of each validation batch, and the
model parameter state after this epoch's optimizer steps (the value
`model.state_dict()` holds from the end of the training pass until the next
epoch). -/
structure SiameseEpochData (P : Type) where
  trainLosses : List ℚ
  valLosses : List ℚ
  params : P
  deriving Repr, DecidableEq

/-- Mutable state of the `siamese_train` loop. -/
structure SiameseState (P : Type) where
  /-- `best_loss`, initialized to `float('inf')` (`none`). -/
  best_loss : Option ℚ
  /-- `train_losses` history list. -/
  train_losses : List ℚ
  /-- `val_losses` history list. -/
  val_losses : List ℚ
  /-- current `model.state_dict()`. -/
  params : P
  /-- latest contents of each file written so far. -/
  files : List (FPath × P)
  /-- chronological log of every `torch.save` performed, oldest first. -/
  writeLog : List (FPath × P)
  deriving Repr, DecidableEq

/-- One iteration of the `for epoch in range(epochs)` loop of
`siamese_train`: train pass (accumulate loss), mean train loss, validation
pass (accumulate loss), mean val loss, then the best-checkpoint decision
`if avg_val_loss < best_loss`.  Returns the new state together with the
list of file writes this epoch performed. -/
def siameseEpochStep {P : Type} (save_dir : FPath) (s : SiameseState P)
    (d : SiameseEpochData P) : SiameseState P × List (FPath × P) :=
  let avg_train_loss := meanLoss d.trainLosses
  let avg_val_loss := meanLoss d.valLosses
  let improved := pyLtInf avg_val_loss s.best_loss
  let writes :=
    if improved then [(osPathJoin save_dir "siamese_resnet18_best.pth", d.params)]
    else []
  ({ best_loss := if improved then some avg_val_loss else s.best_loss
     train_losses := s.train_losses ++ [avg_train_loss]
     val_losses := s.val_losses ++ [avg_val_loss]
     params := d.params
     files := writes.foldl (fun fs w => fsWrite fs w.1 w.2) s.files
     writeLog := s.writeLog ++ writes }, writes)

/-- Initial state of `siamese_train` before the first epoch:
`best_loss = float('inf')`, empty histories, the freshly initialized model
parameters, and an untouched filesystem. -/
def siameseInit {P : Type} (p0 : P) : SiameseState P :=
  { best_loss := none
    train_losses := []
    val_losses := []
    params := p0
    files := []
    writeLog := [] }

/-- State after running the epoch loop of `siamese_train` over the given
epoch data, starting from state `s`. -/
def siameseRun {P : Type} (save_dir : FPath) (s : SiameseState P)
    (l : List (SiameseEpochData P)) : SiameseState P :=
  l.foldl (fun st d => (siameseEpochStep save_dir st d).1) s

/-- `siamese_train(current_dir, ...)`: builds `save_dir = current_dir/models`,
runs the epoch loop from the initial state, then unconditionally saves the
final model to `siamese_resnet18.pth`.  (The `images`, `lr` and plotting
arguments have no effect on the modelled state and are omitted.) -/
def siamese_train {P : Type} (current_dir : FPath) (p0 : P)
    (epochs : List (SiameseEpochData P)) : SiameseState P :=
  let save_dir := osPathJoin current_dir "models"
  let s := siameseRun save_dir (siameseInit p0) epochs
  let save_path := osPathJoin save_dir "siamese_resnet18.pth"
  { s with files := fsWrite s.files save_path s.params
           writeLog := s.writeLog ++ [(save_path, s.params)] }

/-! ## Stage B: `classifier_train` -/

/-- Which split a per-epoch classification report was printed for. -/
inductive Split
  | train
  | val
  deriving Repr, DecidableEq

/-- `sklearn.metrics.roc_auc_score(labels, probs)` for binary labels:
raises `ValueError` unless both classes occur in `labels`; otherwise the
Mann-Whitney statistic (fraction of positive/negative pairs ranked
correctly, ties counting one half). -/
def roc_auc_score (labels : List Bool) (probs : List ℚ) : Except String ℚ :=
  if true ∈ labels ∧ false ∈ labels then
    let pairs := labels.zip probs
    let pos := (pairs.filter (fun e => e.1 = true)).map (fun e => e.2)
    let neg := (pairs.filter (fun e => e.1 = false)).map (fun e => e.2)
    let pairScores :=
      pos.map (fun p =>
        (neg.map (fun n =>
          if n < p then (1 : ℚ) else if n = p then 1/2 else 0)).sum)
    Except.ok (pairScores.sum / ((pos.length : ℚ) * (neg.length : ℚ)))
  else
    Except.error "Only one class present in y_true. ROC AUC score is not defined in that case."

/-- True positives of class `c`: positions where truth and prediction both
equal `c`. -/
def tpCount (y pred : List Bool) (c : Bool) : ℕ :=
  ((y.zip pred).filter (fun e => e.1 = c ∧ e.2 = c)).length

/-- Per-class precision with `zero_division=0`: `tp / predicted-count`,
reported as `0` when nothing was predicted as class `c`. -/
def precisionZ (y pred : List Bool) (c : Bool) : ℚ :=
  if pred.count c = 0 then 0 else (tpCount y pred c : ℚ) / (pred.count c : ℚ)

/-- Per-class recall with `zero_division=0`: `tp / true-count`, reported as
`0` when class `c` has no true samples. -/
def recallZ (y pred : List Bool) (c : Bool) : ℚ :=
  if y.count c = 0 then 0 else (tpCount y pred c : ℚ) / (y.count c : ℚ)

/-- Per-class F1 with `zero_division=0`: harmonic mean of precision and
recall, reported as `0` when both vanish. -/
def f1Z (y pred : List Bool) (c : Bool) : ℚ :=
  let p := precisionZ y pred c
  let r := recallZ y pred c
  if p + r = 0 then 0 else 2 * p * r / (p + r)

/-- Precision/recall/F1 of one class, as printed by
`classification_report`. -/
structure ClassStats where
  precStat : ℚ
  recStat : ℚ
  f1Stat : ℚ
  deriving Repr, DecidableEq

/-- The per-class body of `classification_report(y, pred, zero_division=0)`
for the binary labels of this script. -/
structure ClsReport where
  benign : ClassStats
  malignant : ClassStats
  deriving Repr, DecidableEq

/-- `classification_report(y, pred, zero_division=0)` restricted to the
per-class precision/recall/F1 rows. -/
def classification_report (y pred : List Bool) : ClsReport :=
  { benign :=
      { precStat := precisionZ y pred false
        recStat := recallZ y pred false
        f1Stat := f1Z y pred false }
    malignant :=
      { precStat := precisionZ y pred true
        recStat := recallZ y pred true
        f1Stat := f1Z y pred true } }

/-- Observable events of one `classifier_train` run that the claims talk
about: a forward pass of the frozen siamese model on a batch (recording
whether it ran inside a `torch.no_grad()` context), and the printing of a
classification report for a split. -/
inductive TraceEvent
  | embedCall (split : Split) (noGrad : Bool)
  | reportPrint (split : Split) (rep : ClsReport)
  deriving Repr, DecidableEq

/-- Which model's parameters an optimizer was registered with. -/
inductive ParamRef
  | siameseRef
  | classifierRef
  deriving Repr, DecidableEq

/-- `model.train()` / `model.eval()` mode flag. -/
inductive NNMode
  | trainMode
  | evalMode
  deriving Repr, DecidableEq

/-- Externally produced data of one batch of `classifier_train`: the batch
labels, the sigmoid probabilities the classifier produced for them, and
the scalar `loss.item()` of the batch. -/
structure ClsBatch where
  labels : List Bool
  probs : List ℚ
  loss : ℚ
  deriving Repr, DecidableEq

/-- All labels of an epoch pass, in collection order
(`train_labels.extend(...)` per batch). -/
def batchesLabels (bs : List ClsBatch) : List Bool :=
  (bs.map (fun b => b.labels)).flatten

/-- All probabilities of an epoch pass, in collection order. -/
def batchesProbs (bs : List ClsBatch) : List ℚ :=
  (bs.map (fun b => b.probs)).flatten

/-- Externally produced data of one epoch of `classifier_train`: the train
and validation batches and the classifier parameter state produced by this
epoch's optimizer steps. -/
structure ClsEpochData (P : Type) where
  trainBatches : List ClsBatch
  valBatches : List ClsBatch
  newParams : P
  deriving Repr, DecidableEq

/-- Mutable state of the `classifier_train` loop. -/
structure ClsState (P : Type) where
  /-- parameters of the frozen siamese model passed in. -/
  siameseParams : P
  /-- mode of the siamese model (`siamese.eval()` before the loop). -/
  siameseMode : NNMode
  /-- current `classifier.state_dict()`. -/
  clsParams : P
  /-- mode of the classifier (`train()` per epoch, `eval()` for validation). -/
  clsMode : NNMode
  /-- the parameters the optimizer was constructed over
  (`torch.optim.Adam(classifier.parameters(), ...)`). -/
  optimizerOver : ParamRef
  /-- `pos_weight` held by the `BCEWithLogitsLoss` criterion object. -/
  posWeight : ℚ
  /-- `best_auroc`, initialized to `0.0`. -/
  best_auroc : ℚ
  train_losses : List ℚ
  val_losses : List ℚ
  train_accuracies : List ℚ
  val_accuracies : List ℚ
  /-- `train_aurocs` history; `none` records `np.nan`. -/
  train_aurocs : List (Option ℚ)
  /-- `val_aurocs` history; `none` records `np.nan`. -/
  val_aurocs : List (Option ℚ)
  /-- chronological trace of embed calls and report prints, oldest first. -/
  events : List TraceEvent
  /-- latest contents of each file written so far. -/
  files : List (FPath × P)
  /-- chronological log of every `torch.save` performed, oldest first. -/
  writeLog : List (FPath × P)
  deriving Repr, DecidableEq

/-- An optimizer step: writes the new parameter state into whichever
model's parameters the optimizer was registered with. -/
def optimizerApply {P : Type} (s : ClsState P) (p : P) : ClsState P :=
  match s.optimizerOver with
  | ParamRef.classifierRef => { s with clsParams := p }
  | ParamRef.siameseRef => { s with siameseParams := p }

/-- The `try: roc_auc_score ... classification_report ... except ValueError:
auroc = np.nan` block shared by both splits: on success the AUROC and the
printed report (predictions thresholded at `0.5`); on `ValueError` the
AUROC is `np.nan` (`none`) and nothing is printed. -/
def aurocAndReport (split : Split) (labels : List Bool) (probs : List ℚ) :
    Option ℚ × List TraceEvent :=
  match roc_auc_score labels probs with
  | Except.ok a =>
      let binary_probs := probs.map (fun p => decide ((1:ℚ)/2 ≤ p))
      (some a, [TraceEvent.reportPrint split (classification_report labels binary_probs)])
  | Except.error _ => (none, [])

/-- Accuracy of a pass: correct predictions (probability thresholded at
`0.5` compared to the label) divided by the number of samples. -/
def passAccuracy (labels : List Bool) (probs : List ℚ) : ℚ :=
  let preds := probs.map (fun p => decide ((1:ℚ)/2 ≤ p))
  (((labels.zip preds).filter (fun e => e.1 = e.2)).length : ℚ) / (labels.length : ℚ)

/-- The observable events one epoch of `classifier_train` produces, in
program order: a `torch.no_grad()` siamese forward per training batch, the
training report (when the train AUROC computed), a `torch.no_grad()` siamese
forward per validation batch, then the validation report (when the val AUROC
computed). -/
def clsEpochEvents {P : Type} (d : ClsEpochData P) : List TraceEvent :=
  d.trainBatches.map (fun _ => TraceEvent.embedCall Split.train true)
    ++ (aurocAndReport Split.train (batchesLabels d.trainBatches) (batchesProbs d.trainBatches)).2
    ++ d.valBatches.map (fun _ => TraceEvent.embedCall Split.val true)
    ++ (aurocAndReport Split.val (batchesLabels d.valBatches) (batchesProbs d.valBatches)).2

/-- One iteration of the `for epoch in range(epochs)` loop of
`classifier_train`: training pass (per batch: siamese forward inside
`torch.no_grad()`, classifier forward, loss, optimizer step, collect labels
and probabilities), mean train loss and accuracy, train AUROC/report with
its `try/except`, then the validation pass (all inside `torch.no_grad()`),
mean val loss and accuracy, val AUROC/report, and finally the
best-checkpoint decision `if val_auroc > best_auroc`.  Returns the new
state together with the file writes this epoch performed. -/
def classifierEpochStep {P : Type} (save_dir : FPath) (s : ClsState P)
    (d : ClsEpochData P) : ClsState P × List (FPath × P) :=
  let s1 := optimizerApply { s with clsMode := NNMode.trainMode } d.newParams
  let tLabels := batchesLabels d.trainBatches
  let tProbs := batchesProbs d.trainBatches
  let avg_train_loss := meanLoss (d.trainBatches.map (fun b => b.loss))
  let train_accuracy := passAccuracy tLabels tProbs
  let trainRes := aurocAndReport Split.train tLabels tProbs
  let vLabels := batchesLabels d.valBatches
  let vProbs := batchesProbs d.valBatches
  let avg_val_loss := meanLoss (d.valBatches.map (fun b => b.loss))
  let val_accuracy := passAccuracy vLabels vProbs
  let valRes := aurocAndReport Split.val vLabels vProbs
  let val_auroc := valRes.1
  let improved := pyGtNan val_auroc s.best_auroc
  let writes :=
    if improved then [(osPathJoin save_dir "classifier_best.pth", d.newParams)]
    else []
  ({ s1 with
      clsMode := NNMode.evalMode
      best_auroc :=
        match val_auroc, improved with
        | some a, true => a
        | _, _ => s.best_auroc
      train_losses := s.train_losses ++ [avg_train_loss]
      val_losses := s.val_losses ++ [avg_val_loss]
      train_accuracies := s.train_accuracies ++ [train_accuracy]
      val_accuracies := s.val_accuracies ++ [val_accuracy]
      train_aurocs := s.train_aurocs ++ [trainRes.1]
      val_aurocs := s.val_aurocs ++ [val_auroc]
      events := s.events ++ clsEpochEvents d
      files := writes.foldl (fun fs w => fsWrite fs w.1 w.2) s.files
      writeLog := s.writeLog ++ writes }, writes)

/-- Initial state of `classifier_train` before the first epoch:
`siamese.eval()`, fresh classifier in `train()` mode, optimizer over the
classifier's parameters only, the criterion holding `pos_weight`,
`best_auroc = 0.0`, empty histories and an untouched filesystem. -/
def classifierInit {P : Type} (siamese c0 : P) (pw : ℚ) : ClsState P :=
  { siameseParams := siamese
    siameseMode := NNMode.evalMode
    clsParams := c0
    clsMode := NNMode.trainMode
    optimizerOver := ParamRef.classifierRef
    posWeight := pw
    best_auroc := 0
    train_losses := []
    val_losses := []
    train_accuracies := []
    val_accuracies := []
    train_aurocs := []
    val_aurocs := []
    events := []
    files := []
    writeLog := [] }

/-- State after running the epoch loop of `classifier_train` over the
given epoch data, starting from state `s`. -/
def classifierRun {P : Type} (save_dir : FPath) (s : ClsState P)
    (l : List (ClsEpochData P)) : ClsState P :=
  l.foldl (fun st d => (classifierEpochStep save_dir st d).1) s

/-- `classifier_train(current_dir, ..., siamese, ...)`: builds
`save_dir = current_dir/models`, counts benign (label 0) and malignant
(label 1) samples over the full training set
(`labels = [label for _, label in train_loader.dataset]`), computes
`pos_weight = benign_count / malignant_count` — a Python `ZeroDivisionError`
when there is no malignant sample, modelled as `Except.error` before any
epoch runs — then runs the epoch loop and unconditionally saves the final
classifier to `classifier.pth`. -/
def classifier_train {P : Type} (current_dir : FPath)
    (datasetLabels : List Bool) (siamese c0 : P)
    (epochs : List (ClsEpochData P)) : Except String (ClsState P) :=
  let save_dir := osPathJoin current_dir "models"
  let benign_count := datasetLabels.count false
  let malignant_count := datasetLabels.count true
  if malignant_count = 0 then Except.error "ZeroDivisionError: division by zero"
  else
    let pos_weight : ℚ := (benign_count : ℚ) / (malignant_count : ℚ)
    let s := classifierRun save_dir (classifierInit siamese c0 pos_weight) epochs
    let save_path := osPathJoin save_dir "classifier.pth"
    Except.ok { s with files := fsWrite s.files save_path s.clsParams
                       writeLog := s.writeLog ++ [(save_path, s.clsParams)] }

/-! ## Derived notions and helper lemmas -/

/-- Evolution of the `best_loss` record over a sequence of mean validation
losses, exactly as the Stage A loop updates it. -/
def bestOf (b : Option ℚ) (l : List ℚ) : Option ℚ :=
  l.foldl (fun acc q => if pyLtInf q acc then some q else acc) b

/-- Mean validation loss of one Stage A epoch. -/
def siameseValAvg {P : Type} (d : SiameseEpochData P) : ℚ :=
  meanLoss d.valLosses

/-- The validation AUROC one Stage B epoch records (`none` = `np.nan`). -/
def valAurocOf {P : Type} (d : ClsEpochData P) : Option ℚ :=
  (aurocAndReport Split.val (batchesLabels d.valBatches) (batchesProbs d.valBatches)).1

/-- Evolution of the `best_auroc` record over a sequence of per-epoch
validation AUROCs, exactly as the Stage B loop updates it. -/
def bestAurocOf (b : ℚ) (l : List (Option ℚ)) : ℚ :=
  l.foldl (fun acc a =>
    match a, pyGtNan a acc with
    | some q, true => q
    | _, _ => acc) b

theorem bestOf_cons (b : Option ℚ) (q : ℚ) (t : List ℚ) :
    bestOf b (q :: t) = bestOf (if pyLtInf q b then some q else b) t := rfl

theorem pyLtInf_bestOf_some (a b : ℚ) (l : List ℚ) :
    pyLtInf a (bestOf (some b) l) = true ↔ a < b ∧ ∀ q ∈ l, a < q := by
  induction l generalizing b with
  | nil => simp [bestOf, pyLtInf]
  | cons q t ih =>
      rw [bestOf_cons]
      by_cases h : q < b
      · rw [show (if pyLtInf q (some b) = true then some q else some b) = some q by
          simp [pyLtInf, h]]
        rw [ih]
        constructor
        · rintro ⟨h1, h2⟩
          refine ⟨lt_trans h1 h, fun r hr => ?_⟩
          rcases List.mem_cons.mp hr with h' | h'
          · exact h' ▸ h1
          · exact h2 r h'
        · rintro ⟨h1, h2⟩
          exact ⟨h2 q (List.mem_cons_self q t), fun r hr => h2 r (List.mem_cons_of_mem q hr)⟩
      · rw [show (if pyLtInf q (some b) = true then some q else some b) = some b by
          simp [pyLtInf, h]]
        rw [ih]
        constructor
        · rintro ⟨h1, h2⟩
          refine ⟨h1, fun r hr => ?_⟩
          rcases List.mem_cons.mp hr with h' | h'
          · exact h' ▸ lt_of_lt_of_le h1 (le_of_not_lt h)
          · exact h2 r h'
        · rintro ⟨h1, h2⟩
          exact ⟨h1, fun r hr => h2 r (List.mem_cons_of_mem q hr)⟩

theorem pyLtInf_bestOf_none (a : ℚ) (l : List ℚ) :
    pyLtInf a (bestOf none l) = true ↔ ∀ q ∈ l, a < q := by
  cases l with
  | nil => simp [bestOf, pyLtInf]
  | cons q t =>
      rw [bestOf_cons]
      rw [show (if pyLtInf q none = true then some q else none) = some q from rfl]
      rw [pyLtInf_bestOf_some]
      constructor
      · rintro ⟨h1, h2⟩ r hr
        rcases List.mem_cons.mp hr with h' | h'
        · exact h' ▸ h1
        · exact h2 r h'
      · intro h
        exact ⟨h q (List.mem_cons_self q t), fun r hr => h r (List.mem_cons_of_mem q hr)⟩

theorem fsRead_fsWrite_self {P : Type} (fs : List (FPath × P)) (p : FPath) (v : P) :
    fsRead (fsWrite fs p v) p = some v := by
  simp [fsRead, fsWrite, List.find?]

theorem siameseRun_nil {P : Type} (sd : FPath) (s : SiameseState P) :
    siameseRun sd s [] = s := rfl

theorem siameseRun_cons {P : Type} (sd : FPath) (s : SiameseState P)
    (d : SiameseEpochData P) (t : List (SiameseEpochData P)) :
    siameseRun sd s (d :: t) = siameseRun sd (siameseEpochStep sd s d).1 t := rfl

/-- History invariant of the Stage A loop: the loss histories accumulate the
per-epoch means in order, the `best_loss` record evolves by `bestOf`, and the
current parameters are the last epoch's. -/
theorem siameseRun_invariant {P : Type} (sd : FPath) (s : SiameseState P)
    (l : List (SiameseEpochData P)) :
    (siameseRun sd s l).train_losses
        = s.train_losses ++ l.map (fun d => meanLoss d.trainLosses)
    ∧ (siameseRun sd s l).val_losses
        = s.val_losses ++ l.map (fun d => siameseValAvg d)
    ∧ (siameseRun sd s l).best_loss
        = bestOf s.best_loss (l.map (fun d => siameseValAvg d)) := by
  induction l generalizing s with
  | nil => simp [siameseRun, bestOf]
  | cons d t ih =>
      rw [siameseRun_cons]
      obtain ⟨h1, h2, h3⟩ := ih (siameseEpochStep sd s d).1
      refine ⟨?_, ?_, ?_⟩
      · rw [h1]; simp [siameseEpochStep]
      · rw [h2]; simp [siameseEpochStep, siameseValAvg]
      · rw [h3]
        simp only [List.map_cons, bestOf_cons]
        congr 1

/-- The Stage A loop carries forward the parameter state of the last epoch
processed. -/
theorem siameseRun_params {P : Type} (sd : FPath) (s : SiameseState P)
    (l : List (SiameseEpochData P)) (h : l ≠ []) :
    (siameseRun sd s l).params = (l.getLast h).params := by
  induction l generalizing s with
  | nil => exact absurd rfl h
  | cons d t ih =>
      rw [siameseRun_cons]
      cases t with
      | nil => simp [siameseRun, siameseEpochStep]
      | cons d2 t2 =>
          rw [ih (siameseEpochStep sd s d).1 (by simp)]
          simp [List.getLast]

/-- C1: In `siamese_train`, for every epoch, `siamese_resnet18_best.pth` is
overwritten with the current model parameters if and only if that epoch's
mean validation loss is strictly less than the best validation loss observed
in any prior epoch (record initialized to `+∞`); on a save the best-loss
record becomes that epoch's mean validation loss, otherwise both the file
and the record are unchanged. -/
theorem siamese_best_checkpoint_iff {P : Type} (current_dir : FPath) (p0 : P)
    (l : List (SiameseEpochData P)) (i : ℕ) (h : i < l.length) :
    let sd := osPathJoin current_dir "models"
    let s := siameseRun sd (siameseInit p0) (l.take i)
    let d := l.get ⟨i, h⟩
    let saved := ∀ q ∈ (l.take i).map (fun e => siameseValAvg e), siameseValAvg d < q
    ((siameseEpochStep sd s d).2
        = [(osPathJoin sd "siamese_resnet18_best.pth", d.params)] ↔ saved)
    ∧ ((siameseEpochStep sd s d).2 = [] ↔ ¬ saved)
    ∧ (saved → (siameseEpochStep sd s d).1.best_loss = some (siameseValAvg d)
        ∧ fsRead (siameseEpochStep sd s d).1.files
            (osPathJoin sd "siamese_resnet18_best.pth") = some d.params)
    ∧ (¬ saved → (siameseEpochStep sd s d).1.best_loss = s.best_loss
        ∧ (siameseEpochStep sd s d).1.files = s.files) := by
  intro sd s d saved
  have hbest : s.best_loss = bestOf none ((l.take i).map (fun e => siameseValAvg e)) := by
    have := (siameseRun_invariant sd (siameseInit p0) (l.take i)).2.2
    simpa [siameseInit] using this
  have hiff : pyLtInf (meanLoss d.valLosses) s.best_loss = true ↔ saved := by
    rw [hbest, pyLtInf_bestOf_none]
    exact Iff.rfl
  cases hc : pyLtInf (meanLoss d.valLosses) s.best_loss with
  | true =>
      have hs : saved := hiff.mp hc
      have hstep2 : (siameseEpochStep sd s d).2
          = [(osPathJoin sd "siamese_resnet18_best.pth", d.params)] := by
        simp [siameseEpochStep, hc]
      have hbl : (siameseEpochStep sd s d).1.best_loss = some (siameseValAvg d) := by
        simp [siameseEpochStep, hc, siameseValAvg]
      have hfiles : (siameseEpochStep sd s d).1.files
          = fsWrite s.files (osPathJoin sd "siamese_resnet18_best.pth") d.params := by
        simp [siameseEpochStep, hc, fsWrite]
      refine ⟨?_, ?_, ?_, ?_⟩
      · rw [hstep2]; exact ⟨fun _ => hs, fun _ => rfl⟩
      · rw [hstep2]
        exact ⟨fun he => absurd he (List.cons_ne_nil _ _), fun hn => absurd hs hn⟩
      · exact fun _ => ⟨hbl, by rw [hfiles]; exact fsRead_fsWrite_self _ _ _⟩
      · exact fun hn => absurd hs hn
  | false =>
      have hns : ¬ saved := fun hs => by
        have := hiff.mpr hs
        rw [hc] at this
        exact Bool.false_ne_true this
      have hstep2 : (siameseEpochStep sd s d).2 = [] := by
        simp [siameseEpochStep, hc]
      have hbl : (siameseEpochStep sd s d).1.best_loss = s.best_loss := by
        simp [siameseEpochStep, hc]
      have hfiles : (siameseEpochStep sd s d).1.files = s.files := by
        simp [siameseEpochStep, hc]
      refine ⟨?_, ?_, ?_, ?_⟩
      · rw [hstep2]
        exact iff_of_false (fun he => List.cons_ne_nil _ _ he.symm) hns
      · rw [hstep2]
        exact iff_of_true rfl hns
      · exact fun hs => absurd hs hns
      · exact fun _ => ⟨hbl, hfiles⟩

/-- Witness for C1, replaying the spec's Stage A scenario: epoch validation
losses `0.5`, `0.6`, `0.45` — epoch 1 saves (best so far), epoch 2 does not,
epoch 3 saves again. -/
theorem siamese_best_checkpoint_iff_witness :
    let l : List (SiameseEpochData ℕ) :=
      [⟨[1], [1/2], 10⟩, ⟨[1], [3/5], 20⟩, ⟨[1], [9/20], 30⟩]
    let sd := osPathJoin "base" "models"
    ((siameseEpochStep sd (siameseRun sd (siameseInit 0) (l.take 0)) (l.get ⟨0, by decide⟩)).2
        = [(osPathJoin sd "siamese_resnet18_best.pth", 10)])
    ∧ ((siameseEpochStep sd (siameseRun sd (siameseInit 0) (l.take 1)) (l.get ⟨1, by decide⟩)).2
        = [])
    ∧ ((siameseEpochStep sd (siameseRun sd (siameseInit 0) (l.take 2)) (l.get ⟨2, by decide⟩)).2
        = [(osPathJoin sd "siamese_resnet18_best.pth", 30)]) := by
  intro l sd
  refine ⟨?_, ?_, ?_⟩
  · exact ((siamese_best_checkpoint_iff "base" 0 l 0 (by decide)).1).mpr (by simp)
  · exact ((siamese_best_checkpoint_iff "base" 0 l 1 (by decide)).2.1).mpr
      (by
        intro hcon
        have := hcon (siameseValAvg (⟨[1], [1/2], 10⟩ : SiameseEpochData ℕ)) (by simp [l])
        simp only [siameseValAvg, meanLoss, List.sum_cons, List.sum_nil, List.length_cons,
          List.length_nil, l] at this
        norm_num at this)
  · exact ((siamese_best_checkpoint_iff "base" 0 l 2 (by decide)).1).mpr
      (by
        intro q hq
        simp only [l, List.take, List.map_cons, List.map_nil, List.mem_cons,
          List.not_mem_nil, or_false] at hq
        rcases hq with h1 | h1 <;>
          (subst h1; norm_num [l, siameseValAvg, meanLoss]))

theorem bestAurocOf_cons (b : ℚ) (a : Option ℚ) (t : List (Option ℚ)) :
    bestAurocOf b (a :: t)
      = bestAurocOf (match a, pyGtNan a b with
          | some q, true => q
          | _, _ => b) t := rfl

theorem classifierRun_nil {P : Type} (sd : FPath) (s : ClsState P) :
    classifierRun sd s [] = s := rfl

theorem classifierRun_cons {P : Type} (sd : FPath) (s : ClsState P)
    (d : ClsEpochData P) (t : List (ClsEpochData P)) :
    classifierRun sd s (d :: t) = classifierRun sd (classifierEpochStep sd s d).1 t := rfl

/-- Frame invariant of the Stage B loop: when the optimizer was registered
over the classifier's parameters, the loop never touches the frozen siamese
model (parameters or mode), the optimizer registration, or the criterion's
`pos_weight`. -/
theorem classifierRun_frame {P : Type} (sd : FPath) (s : ClsState P)
    (l : List (ClsEpochData P)) (h : s.optimizerOver = ParamRef.classifierRef) :
    (classifierRun sd s l).optimizerOver = ParamRef.classifierRef
    ∧ (classifierRun sd s l).posWeight = s.posWeight
    ∧ (classifierRun sd s l).siameseParams = s.siameseParams
    ∧ (classifierRun sd s l).siameseMode = s.siameseMode := by
  induction l generalizing s with
  | nil => exact ⟨h, rfl, rfl, rfl⟩
  | cons d t ih =>
      rw [classifierRun_cons]
      have hstep : (classifierEpochStep sd s d).1.optimizerOver = ParamRef.classifierRef
          ∧ (classifierEpochStep sd s d).1.posWeight = s.posWeight
          ∧ (classifierEpochStep sd s d).1.siameseParams = s.siameseParams
          ∧ (classifierEpochStep sd s d).1.siameseMode = s.siameseMode := by
        simp [classifierEpochStep, optimizerApply, h]
      obtain ⟨h1, h2, h3, h4⟩ := hstep
      obtain ⟨g1, g2, g3, g4⟩ := ih (classifierEpochStep sd s d).1 h1
      exact ⟨g1, by rw [g2, h2], by rw [g3, h3], by rw [g4, h4]⟩

/-- History invariant of the Stage B loop: the loss and AUROC histories
accumulate the per-epoch values in order, `best_auroc` evolves by
`bestAurocOf`, and the event trace accumulates each epoch's events. -/
theorem classifierRun_histories {P : Type} (sd : FPath) (s : ClsState P)
    (l : List (ClsEpochData P)) :
    (classifierRun sd s l).train_losses
        = s.train_losses ++ l.map (fun d => meanLoss (d.trainBatches.map (fun b => b.loss)))
    ∧ (classifierRun sd s l).val_losses
        = s.val_losses ++ l.map (fun d => meanLoss (d.valBatches.map (fun b => b.loss)))
    ∧ (classifierRun sd s l).train_aurocs
        = s.train_aurocs ++ l.map (fun d =>
            (aurocAndReport Split.train (batchesLabels d.trainBatches)
              (batchesProbs d.trainBatches)).1)
    ∧ (classifierRun sd s l).val_aurocs
        = s.val_aurocs ++ l.map (fun d => valAurocOf d)
    ∧ (classifierRun sd s l).best_auroc
        = bestAurocOf s.best_auroc (l.map (fun d => valAurocOf d))
    ∧ (classifierRun sd s l).events
        = s.events ++ (l.map (fun d => clsEpochEvents d)).flatten := by
  induction l generalizing s with
  | nil => simp [classifierRun, bestAurocOf]
  | cons d t ih =>
      rw [classifierRun_cons]
      obtain ⟨h1, h2, h3, h4, h5, h6⟩ := ih (classifierEpochStep sd s d).1
      refine ⟨?_, ?_, ?_, ?_, ?_, ?_⟩
      · rw [h1]; simp [classifierEpochStep, optimizerApply]
      · rw [h2]; simp [classifierEpochStep, optimizerApply]
      · rw [h3]; simp [classifierEpochStep, optimizerApply]
      · rw [h4]; simp [classifierEpochStep, optimizerApply, valAurocOf]
      · rw [h5]
        simp only [List.map_cons, bestAurocOf_cons]
        congr 1
      · rw [h6]; simp [classifierEpochStep, optimizerApply]

/-- With the optimizer registered over the classifier, the Stage B loop
carries forward the classifier parameters of the last epoch processed. -/
theorem classifierRun_clsParams {P : Type} (sd : FPath) (s : ClsState P)
    (l : List (ClsEpochData P)) (hop : s.optimizerOver = ParamRef.classifierRef)
    (h : l ≠ []) :
    (classifierRun sd s l).clsParams = (l.getLast h).newParams := by
  induction l generalizing s with
  | nil => exact absurd rfl h
  | cons d t ih =>
      rw [classifierRun_cons]
      have hop2 : (classifierEpochStep sd s d).1.optimizerOver = ParamRef.classifierRef := by
        simp [classifierEpochStep, optimizerApply, hop]
      cases t with
      | nil =>
          rw [classifierRun_nil]
          simp [classifierEpochStep, optimizerApply, hop, List.getLast]
      | cons d2 t2 =>
          rw [ih (classifierEpochStep sd s d).1 hop2 (by simp)]
          simp [List.getLast]

/-- Every write the Stage A loop performs targets the best-checkpoint file. -/
theorem siameseRun_writeLog {P : Type} (sd : FPath) (s : SiameseState P)
    (l : List (SiameseEpochData P)) :
    ∀ w ∈ (siameseRun sd s l).writeLog,
      w ∈ s.writeLog ∨ w.1 = osPathJoin sd "siamese_resnet18_best.pth" := by
  induction l generalizing s with
  | nil => exact fun w hw => Or.inl hw
  | cons d t ih =>
      rw [siameseRun_cons]
      intro w hw
      rcases ih (siameseEpochStep sd s d).1 w hw with hmem | hbest
      · have : (siameseEpochStep sd s d).1.writeLog
            = s.writeLog ++ (siameseEpochStep sd s d).2 := by
          simp [siameseEpochStep]
        rw [this] at hmem
        rcases List.mem_append.mp hmem with h1 | h1
        · exact Or.inl h1
        · right
          by_cases hc : pyLtInf (meanLoss d.valLosses) s.best_loss = true
          · simp [siameseEpochStep, hc] at h1
            rw [h1]
          · simp [siameseEpochStep, hc] at h1
      · exact Or.inr hbest

/-- Every write the Stage B loop performs targets the best-checkpoint file. -/
theorem classifierRun_writeLog {P : Type} (sd : FPath) (s : ClsState P)
    (l : List (ClsEpochData P)) :
    ∀ w ∈ (classifierRun sd s l).writeLog,
      w ∈ s.writeLog ∨ w.1 = osPathJoin sd "classifier_best.pth" := by
  induction l generalizing s with
  | nil => exact fun w hw => Or.inl hw
  | cons d t ih =>
      rw [classifierRun_cons]
      intro w hw
      rcases ih (classifierEpochStep sd s d).1 w hw with hmem | hbest
      · have : (classifierEpochStep sd s d).1.writeLog
            = s.writeLog ++ (classifierEpochStep sd s d).2 := by
          simp [classifierEpochStep, optimizerApply]
        rw [this] at hmem
        rcases List.mem_append.mp hmem with h1 | h1
        · exact Or.inl h1
        · right
          by_cases hc : pyGtNan (aurocAndReport Split.val (batchesLabels d.valBatches)
              (batchesProbs d.valBatches)).1 s.best_auroc = true
          · simp [classifierEpochStep, hc] at h1
            rw [h1]
          · simp [classifierEpochStep, hc] at h1
      · exact Or.inr hbest

theorem foldl_max_lt_iff (b q : ℚ) (l : List ℚ) :
    l.foldl max b < q ↔ b < q ∧ ∀ r ∈ l, r < q := by
  induction l generalizing b with
  | nil => simp
  | cons r t ih =>
      simp only [List.foldl_cons]
      rw [ih]
      constructor
      · rintro ⟨h1, h2⟩
        rcases max_lt_iff.mp h1 with ⟨hb, hr⟩
        refine ⟨hb, fun x hx => ?_⟩
        rcases List.mem_cons.mp hx with h' | h'
        · exact h' ▸ hr
        · exact h2 x h'
      · rintro ⟨h1, h2⟩
        exact ⟨max_lt_iff.mpr ⟨h1, h2 r (List.mem_cons_self r t)⟩,
          fun x hx => h2 x (List.mem_cons_of_mem r hx)⟩

theorem bestAurocOf_eq_foldl (b : ℚ) (l : List (Option ℚ)) :
    bestAurocOf b l = (l.filterMap id).foldl max b := by
  induction l generalizing b with
  | nil => rfl
  | cons a t ih =>
      rw [bestAurocOf_cons]
      cases a with
      | none =>
          have h1 : List.filterMap id (none :: t) = List.filterMap id t := by simp
          rw [h1]
          exact ih b
      | some q =>
          have h1 : List.filterMap id (some q :: t) = q :: List.filterMap id t := by simp
          rw [h1, List.foldl_cons]
          by_cases h : b < q
          · have hgt : pyGtNan (some q) b = true := by simp [pyGtNan, h]
            rw [hgt, max_eq_right (le_of_lt h)]
            exact ih q
          · have hgt : pyGtNan (some q) b = false := by simp [pyGtNan, h]
            rw [hgt, max_eq_left (le_of_not_lt h)]
            exact ih b

theorem pyGtNan_bestAurocOf (a : Option ℚ) (b : ℚ) (l : List (Option ℚ)) :
    pyGtNan a (bestAurocOf b l) = true
      ↔ ∃ q, a = some q ∧ b < q ∧ ∀ r ∈ l.filterMap id, r < q := by
  cases a with
  | none => simp [pyGtNan]
  | some q =>
      rw [bestAurocOf_eq_foldl]
      simp only [pyGtNan, decide_eq_true_eq]
      rw [foldl_max_lt_iff]
      constructor
      · rintro ⟨h1, h2⟩
        exact ⟨q, rfl, h1, h2⟩
      · rintro ⟨q2, hq2, h1, h2⟩
        cases Option.some.inj hq2
        exact ⟨h1, h2⟩

/-- C2: In `classifier_train`, for every epoch, `classifier_best.pth` is
overwritten with the current classifier parameters if and only if that
epoch's validation AUROC is finite and strictly greater than every previous
epoch's finite validation AUROC and than the record's initial `0.0`; on a
save the best-AUROC record becomes that epoch's validation AUROC, otherwise
both the file and the record are unchanged. -/
theorem classifier_best_checkpoint_iff {P : Type} (current_dir : FPath)
    (siamese c0 : P) (pw : ℚ) (l : List (ClsEpochData P)) (i : ℕ)
    (h : i < l.length) :
    let sd := osPathJoin current_dir "models"
    let s := classifierRun sd (classifierInit siamese c0 pw) (l.take i)
    let d := l.get ⟨i, h⟩
    let saved := ∃ q, valAurocOf d = some q ∧ 0 < q
        ∧ ∀ r ∈ ((l.take i).map (fun e => valAurocOf e)).filterMap id, r < q
    ((classifierEpochStep sd s d).2
        = [(osPathJoin sd "classifier_best.pth", d.newParams)] ↔ saved)
    ∧ ((classifierEpochStep sd s d).2 = [] ↔ ¬ saved)
    ∧ (∀ q, valAurocOf d = some q → saved →
        (classifierEpochStep sd s d).1.best_auroc = q
        ∧ fsRead (classifierEpochStep sd s d).1.files
            (osPathJoin sd "classifier_best.pth") = some d.newParams)
    ∧ (¬ saved → (classifierEpochStep sd s d).1.best_auroc = s.best_auroc
        ∧ (classifierEpochStep sd s d).1.files = s.files) := by
  intro sd s d saved
  have hbest : s.best_auroc = bestAurocOf 0 ((l.take i).map (fun e => valAurocOf e)) := by
    have := (classifierRun_histories sd (classifierInit siamese c0 pw) (l.take i)).2.2.2.2.1
    simpa [classifierInit] using this
  have hiff : pyGtNan (aurocAndReport Split.val (batchesLabels d.valBatches)
      (batchesProbs d.valBatches)).1 s.best_auroc = true ↔ saved := by
    rw [hbest, pyGtNan_bestAurocOf]
    exact Iff.rfl
  cases hc : pyGtNan (aurocAndReport Split.val (batchesLabels d.valBatches)
      (batchesProbs d.valBatches)).1 s.best_auroc with
  | true =>
      have hs : saved := hiff.mp hc
      have hstep2 : (classifierEpochStep sd s d).2
          = [(osPathJoin sd "classifier_best.pth", d.newParams)] := by
        simp [classifierEpochStep, hc]
      have hfiles : (classifierEpochStep sd s d).1.files
          = fsWrite s.files (osPathJoin sd "classifier_best.pth") d.newParams := by
        simp [classifierEpochStep, hc, fsWrite]
      refine ⟨?_, ?_, ?_, ?_⟩
      · rw [hstep2]; exact ⟨fun _ => hs, fun _ => rfl⟩
      · rw [hstep2]
        exact ⟨fun he => absurd he (List.cons_ne_nil _ _), fun hn => absurd hs hn⟩
      · intro q hq _
        have hq2 : (aurocAndReport Split.val (batchesLabels d.valBatches)
            (batchesProbs d.valBatches)).1 = some q := hq
        have hc2 : pyGtNan (some q) s.best_auroc = true := by rw [← hq2]; exact hc
        refine ⟨?_, by rw [hfiles]; exact fsRead_fsWrite_self _ _ _⟩
        simp [classifierEpochStep, hc, hq2, hc2]
      · exact fun hn => absurd hs hn
  | false =>
      have hns : ¬ saved := fun hs => by
        have := hiff.mpr hs
        rw [hc] at this
        exact Bool.false_ne_true this
      have hstep2 : (classifierEpochStep sd s d).2 = [] := by
        simp [classifierEpochStep, hc]
      have hfiles : (classifierEpochStep sd s d).1.files = s.files := by
        simp [classifierEpochStep, hc]
      have hba : (classifierEpochStep sd s d).1.best_auroc = s.best_auroc := by
        cases haur : (aurocAndReport Split.val (batchesLabels d.valBatches)
            (batchesProbs d.valBatches)).1 with
        | none => simp [classifierEpochStep, hc, haur]
        | some q =>
            have hc2 : pyGtNan (some q) s.best_auroc = false := by rw [← haur]; exact hc
            simp [classifierEpochStep, hc, haur, hc2]
      refine ⟨?_, ?_, ?_, ?_⟩
      · rw [hstep2]
        exact iff_of_false (fun he => List.cons_ne_nil _ _ he.symm) hns
      · rw [hstep2]
        exact iff_of_true rfl hns
      · exact fun q hq hs => absurd hs hns
      · exact fun _ => ⟨hba, hfiles⟩

/-- Witness for C2: a first epoch with validation AUROC `1.0` saves the best
checkpoint; a second epoch with validation AUROC `0.0` does not. -/
theorem classifier_best_checkpoint_iff_witness :
    let b0 : ClsBatch := ⟨[true, false], [3/4, 1/4], 1⟩
    let b1 : ClsBatch := ⟨[true, false], [1/4, 3/4], 1⟩
    let l : List (ClsEpochData ℕ) := [⟨[b0], [b0], 7⟩, ⟨[b1], [b1], 8⟩]
    let sd := osPathJoin "base" "models"
    ((classifierEpochStep sd (classifierRun sd (classifierInit 0 0 1) (l.take 0))
        (l.get ⟨0, by decide⟩)).2
      = [(osPathJoin sd "classifier_best.pth", 7)])
    ∧ ((classifierEpochStep sd (classifierRun sd (classifierInit 0 0 1) (l.take 1))
        (l.get ⟨1, by decide⟩)).2 = []) := by
  intro b0 b1 l sd
  have h0 : valAurocOf (l.get (⟨0, by decide⟩ : Fin l.length)) = some 1 := by
    simp [l, b0, valAurocOf, aurocAndReport, roc_auc_score, batchesLabels, batchesProbs]
    norm_num
  have h1 : valAurocOf (l.get (⟨1, by decide⟩ : Fin l.length)) = some 0 := by
    simp [l, b1, valAurocOf, aurocAndReport, roc_auc_score, batchesLabels, batchesProbs]
    norm_num
  refine ⟨?_, ?_⟩
  · exact ((classifier_best_checkpoint_iff "base" 0 0 1 l 0 (by decide)).1).mpr
      ⟨1, h0, by norm_num, by simp⟩
  · refine ((classifier_best_checkpoint_iff "base" 0 0 1 l 1 (by decide)).2.1).mpr ?_
    rintro ⟨q, hq, hpos, _⟩
    rw [h1] at hq
    cases Option.some.inj hq
    exact absurd hpos (by norm_num)

/-- C3: after the last epoch, `siamese_train` unconditionally writes the
last epoch's parameters to `siamese_resnet18.pth` and `classifier_train`
unconditionally writes the last epoch's classifier parameters to
`classifier.pth`, both inside the fixed `models` subdirectory of the
caller-supplied base directory; the only other file either writes is its
fixed best-checkpoint name in the same directory. -/
theorem final_checkpoint_unconditional {P : Type} (current_dir : FPath)
    (p0 siamese c0 : P) (datasetLabels : List Bool)
    (ls : List (SiameseEpochData P)) (lc : List (ClsEpochData P))
    (hs : ls ≠ []) (hc : lc ≠ []) (hm : datasetLabels.count true ≠ 0) :
    ((siamese_train current_dir p0 ls).writeLog.getLast?
        = some (osPathJoin (osPathJoin current_dir "models") "siamese_resnet18.pth",
            (ls.getLast hs).params))
    ∧ (fsRead (siamese_train current_dir p0 ls).files
          (osPathJoin (osPathJoin current_dir "models") "siamese_resnet18.pth")
        = some ((ls.getLast hs).params))
    ∧ (∀ w ∈ (siamese_train current_dir p0 ls).writeLog,
        w.1 = osPathJoin (osPathJoin current_dir "models") "siamese_resnet18_best.pth"
        ∨ w.1 = osPathJoin (osPathJoin current_dir "models") "siamese_resnet18.pth")
    ∧ (∃ st, classifier_train current_dir datasetLabels siamese c0 lc = Except.ok st
        ∧ st.writeLog.getLast?
            = some (osPathJoin (osPathJoin current_dir "models") "classifier.pth",
                (lc.getLast hc).newParams)
        ∧ fsRead st.files (osPathJoin (osPathJoin current_dir "models") "classifier.pth")
            = some ((lc.getLast hc).newParams)
        ∧ ∀ w ∈ st.writeLog,
            w.1 = osPathJoin (osPathJoin current_dir "models") "classifier_best.pth"
            ∨ w.1 = osPathJoin (osPathJoin current_dir "models") "classifier.pth") := by
  have hsp : (siameseRun (osPathJoin current_dir "models") (siameseInit p0) ls).params
      = (ls.getLast hs).params := siameseRun_params _ _ ls hs
  refine ⟨?_, ?_, ?_, ?_⟩
  · show ((siameseRun (osPathJoin current_dir "models") (siameseInit p0) ls).writeLog
        ++ [((osPathJoin (osPathJoin current_dir "models") "siamese_resnet18.pth"),
            (siameseRun (osPathJoin current_dir "models") (siameseInit p0) ls).params)]).getLast?
      = _
    rw [List.getLast?_concat, hsp]
  · show fsRead (fsWrite (siameseRun (osPathJoin current_dir "models")
        (siameseInit p0) ls).files
        (osPathJoin (osPathJoin current_dir "models") "siamese_resnet18.pth")
        (siameseRun (osPathJoin current_dir "models") (siameseInit p0) ls).params) _ = _
    rw [fsRead_fsWrite_self, hsp]
  · intro w hw
    have hw2 : w ∈ (siameseRun (osPathJoin current_dir "models") (siameseInit p0) ls).writeLog
        ++ [((osPathJoin (osPathJoin current_dir "models") "siamese_resnet18.pth"),
            (siameseRun (osPathJoin current_dir "models") (siameseInit p0) ls).params)] := hw
    rcases List.mem_append.mp hw2 with h1 | h1
    · rcases siameseRun_writeLog _ _ ls w h1 with h2 | h2
      · exact absurd h2 (List.not_mem_nil w)
      · exact Or.inl h2
    · right
      rw [List.mem_singleton.mp h1]
  · cases hret : classifier_train current_dir datasetLabels siamese c0 lc with
    | error e =>
        exfalso
        simp [classifier_train, hm] at hret
    | ok st =>
        have hst : st =
            (let sd := osPathJoin current_dir "models"
             let pw : ℚ := ((datasetLabels.count false : ℚ) / (datasetLabels.count true : ℚ))
             let s := classifierRun sd (classifierInit siamese c0 pw) lc
             let save_path := osPathJoin sd "classifier.pth"
             { s with files := fsWrite s.files save_path s.clsParams
                      writeLog := s.writeLog ++ [(save_path, s.clsParams)] }) := by
          have := hret
          simp only [classifier_train, if_neg hm, Except.ok.injEq] at this
          exact this.symm
        have hcp : (classifierRun (osPathJoin current_dir "models")
            (classifierInit siamese c0
              ((datasetLabels.count false : ℚ) / (datasetLabels.count true : ℚ))) lc).clsParams
            = (lc.getLast hc).newParams :=
          classifierRun_clsParams _ _ lc rfl hc
        refine ⟨st, rfl, ?_, ?_, ?_⟩
        · rw [hst]
          show (_ ++ [(_, _)]).getLast? = _
          rw [List.getLast?_concat, hcp]
        · rw [hst]
          show fsRead (fsWrite _ _ _) _ = _
          rw [fsRead_fsWrite_self, hcp]
        · intro w hw
          rw [hst] at hw
          have hw2 : w ∈ (classifierRun (osPathJoin current_dir "models")
              (classifierInit siamese c0
                ((datasetLabels.count false : ℚ) / (datasetLabels.count true : ℚ))) lc).writeLog
              ++ [((osPathJoin (osPathJoin current_dir "models") "classifier.pth"),
                  (classifierRun (osPathJoin current_dir "models")
                    (classifierInit siamese c0
                      ((datasetLabels.count false : ℚ)
                        / (datasetLabels.count true : ℚ))) lc).clsParams)] := hw
          rcases List.mem_append.mp hw2 with h1 | h1
          · rcases classifierRun_writeLog _ _ lc w h1 with h2 | h2
            · exact absurd h2 (List.not_mem_nil w)
            · exact Or.inl h2
          · right
            rw [List.mem_singleton.mp h1]

/-- Witness for C3 on a one-epoch run of each stage: the final files receive
that epoch's parameters. -/
theorem final_checkpoint_unconditional_witness :
    ((siamese_train "base" (0:ℕ) [⟨[1], [1], 5⟩]).writeLog.getLast?
      = some (osPathJoin (osPathJoin "base" "models") "siamese_resnet18.pth", 5))
    ∧ (∃ st, classifier_train "base" [true] (0:ℕ) 0
          [⟨[⟨[true], [1], 1⟩], [⟨[true], [1], 1⟩], 9⟩] = Except.ok st
        ∧ st.writeLog.getLast?
            = some (osPathJoin (osPathJoin "base" "models") "classifier.pth", 9)) := by
  obtain ⟨h1, -, -, st, hret, h2, -, -⟩ :=
    final_checkpoint_unconditional "base" (0:ℕ) 0 0 [true]
      [⟨[1], [1], 5⟩] [⟨[⟨[true], [1], 1⟩], [⟨[true], [1], 1⟩], 9⟩]
      (by simp) (by simp) (by simp)
  exact ⟨by simpa using h1, st, hret, by simpa using h2⟩

/-- C4: in both stages, for every epoch with at least one batch, the
recorded mean epoch loss (training and validation) is the running sum of
per-batch scalar losses divided by the number of batches, a short final
batch weighing the same as any other. -/
theorem mean_epoch_loss_eq {P : Type} (sd : FPath) (p0 siamese c0 : P) (pw : ℚ)
    (ls : List (SiameseEpochData P)) (lc : List (ClsEpochData P)) (i j : ℕ)
    (hi : i < ls.length) (hj : j < lc.length)
    (h1 : (ls.get ⟨i, hi⟩).trainLosses ≠ [])
    (h2 : (ls.get ⟨i, hi⟩).valLosses ≠ [])
    (h3 : (lc.get ⟨j, hj⟩).trainBatches ≠ [])
    (h4 : (lc.get ⟨j, hj⟩).valBatches ≠ []) :
    ((siameseRun sd (siameseInit p0) ls).train_losses[i]?
        = some ((ls.get ⟨i, hi⟩).trainLosses.sum
            / ((ls.get ⟨i, hi⟩).trainLosses.length : ℚ)))
    ∧ ((siameseRun sd (siameseInit p0) ls).val_losses[i]?
        = some ((ls.get ⟨i, hi⟩).valLosses.sum
            / ((ls.get ⟨i, hi⟩).valLosses.length : ℚ)))
    ∧ ((classifierRun sd (classifierInit siamese c0 pw) lc).train_losses[j]?
        = some ((((lc.get ⟨j, hj⟩).trainBatches.map (fun b => b.loss)).sum)
            / (((lc.get ⟨j, hj⟩).trainBatches.length : ℚ))))
    ∧ ((classifierRun sd (classifierInit siamese c0 pw) lc).val_losses[j]?
        = some ((((lc.get ⟨j, hj⟩).valBatches.map (fun b => b.loss)).sum)
            / (((lc.get ⟨j, hj⟩).valBatches.length : ℚ)))) := by
  have hsl := (siameseRun_invariant sd (siameseInit p0) ls).1
  have hvl := (siameseRun_invariant sd (siameseInit p0) ls).2.1
  have hct := (classifierRun_histories sd (classifierInit siamese c0 pw) lc).1
  have hcv := (classifierRun_histories sd (classifierInit siamese c0 pw) lc).2.1
  refine ⟨?_, ?_, ?_, ?_⟩
  · rw [hsl]
    simp [siameseInit, meanLoss, List.getElem?_map, List.getElem?_eq_getElem hi]
  · rw [hvl]
    simp [siameseInit, meanLoss, siameseValAvg, List.getElem?_map,
      List.getElem?_eq_getElem hi]
  · rw [hct]
    simp [classifierInit, meanLoss, List.getElem?_map, List.getElem?_eq_getElem hj]
  · rw [hcv]
    simp [classifierInit, meanLoss, List.getElem?_map, List.getElem?_eq_getElem hj]

/-- Witness for C4, replaying the spec's scenario: one epoch with two
training batches of loss `0.8` and `0.4` records mean training loss `0.6`,
in both stages. -/
theorem mean_epoch_loss_eq_witness :
    ((siameseRun "m" (siameseInit (0:ℕ)) [⟨[4/5, 2/5], [1], 3⟩]).train_losses[0]?
      = some (3/5))
    ∧ ((classifierRun "m" (classifierInit (0:ℕ) 0 1)
        [⟨[⟨[true], [1], 4/5⟩, ⟨[false], [0], 2/5⟩], [⟨[true], [1], 1⟩], 3⟩]).train_losses[0]?
      = some (3/5)) := by
  obtain ⟨h1, h2, h3, h4⟩ := mean_epoch_loss_eq "m" (0:ℕ) 0 0 1
      [⟨[4/5, 2/5], [1], 3⟩]
      [⟨[⟨[true], [1], 4/5⟩, ⟨[false], [0], 2/5⟩], [⟨[true], [1], 1⟩], 3⟩]
      0 0 (by decide) (by decide) (by simp) (by simp) (by simp) (by simp)
  constructor
  · rw [h1]
    norm_num
  · rw [h3]
    norm_num

/-- For a single-class label list the AUROC computation raises, so the
`except` branch records `np.nan` and prints nothing. -/
theorem aurocAndReport_single_class (sp : Split) (labels : List Bool)
    (probs : List ℚ) (c : Bool) (h : ∀ b ∈ labels, b = c) :
    (aurocAndReport sp labels probs).1 = none
    ∧ (aurocAndReport sp labels probs).2 = [] := by
  have hroc : ¬ (true ∈ labels ∧ false ∈ labels) := by
    rintro ⟨ht, hf⟩
    have h1 := h true ht
    have h2 := h false hf
    rw [← h2] at h1
    exact Bool.noConfusion h1
  constructor <;> simp [aurocAndReport, roc_auc_score, hroc]

/-- With at least one malignant sample, `classifier_train` returns the state
of the epoch loop, extended with the unconditional final save. -/
theorem classifier_train_ok {P : Type} (current_dir : FPath)
    (datasetLabels : List Bool) (siamese c0 : P) (lc : List (ClsEpochData P))
    (hm : datasetLabels.count true ≠ 0) :
    classifier_train current_dir datasetLabels siamese c0 lc
      = Except.ok
          (let sd := osPathJoin current_dir "models"
           let pw : ℚ := (datasetLabels.count false : ℚ) / (datasetLabels.count true : ℚ)
           let s := classifierRun sd (classifierInit siamese c0 pw) lc
           let save_path := osPathJoin sd "classifier.pth"
           { s with files := fsWrite s.files save_path s.clsParams
                    writeLog := s.writeLog ++ [(save_path, s.clsParams)] }) := by
  simp [classifier_train, hm]

/-- C5: the positive-class weight held by the Stage B criterion equals
`benign_count / malignant_count` over the full training set, is fixed before
the first epoch by `classifier_train`, and is unchanged after any number of
epochs. -/
theorem pos_weight_once_invariant {P : Type} (current_dir : FPath)
    (datasetLabels : List Bool) (siamese c0 : P) (lc : List (ClsEpochData P))
    (hm : datasetLabels.count true ≠ 0) (i : ℕ) :
    ((classifierRun (osPathJoin current_dir "models")
        (classifierInit siamese c0
          ((datasetLabels.count false : ℚ) / (datasetLabels.count true : ℚ)))
        (lc.take i)).posWeight
      = (datasetLabels.count false : ℚ) / (datasetLabels.count true : ℚ))
    ∧ (∃ st, classifier_train current_dir datasetLabels siamese c0 lc = Except.ok st
        ∧ st.posWeight
            = (datasetLabels.count false : ℚ) / (datasetLabels.count true : ℚ)) := by
  constructor
  · exact (classifierRun_frame _ _ (lc.take i) rfl).2.1
  · refine ⟨_, classifier_train_ok current_dir datasetLabels siamese c0 lc hm, ?_⟩
    exact (classifierRun_frame _ _ lc rfl).2.1

/-- Witness for C5, replaying the spec's scenario: training labels
`[1,1,0,0,0]` give `pos_weight = 3/2`, before the loop and after it. -/
theorem pos_weight_once_invariant_witness :
    ((classifierRun (osPathJoin "base" "models")
        (classifierInit (0:ℕ) 0
          ((List.count false [true, true, false, false, false] : ℚ)
            / (List.count true [true, true, false, false, false] : ℚ)))
        ([].take 0)).posWeight = 3/2)
    ∧ (∃ st, classifier_train "base" [true, true, false, false, false] (0:ℕ) 0 []
          = Except.ok st ∧ st.posWeight = 3/2) := by
  obtain ⟨h1, st, hret, hpw⟩ :=
    pos_weight_once_invariant "base" [true, true, false, false, false] (0:ℕ) 0 []
      (by decide) 0
  constructor
  · rw [h1]
    norm_num
  · refine ⟨st, hret, ?_⟩
    rw [hpw]
    norm_num

/-- C10: `classifier_train` aborts with a `ZeroDivisionError` before the
first epoch when the training set has no malignant (label 1) sample, and
completes normally otherwise. -/
theorem pos_weight_requires_malignant {P : Type} (current_dir : FPath)
    (datasetLabels : List Bool) (siamese c0 : P) (lc : List (ClsEpochData P)) :
    (datasetLabels.count true = 0 →
      classifier_train current_dir datasetLabels siamese c0 lc
        = Except.error "ZeroDivisionError: division by zero")
    ∧ (datasetLabels.count true ≠ 0 →
      ∃ st, classifier_train current_dir datasetLabels siamese c0 lc = Except.ok st) := by
  constructor
  · intro h
    simp [classifier_train, h]
  · intro h
    exact ⟨_, classifier_train_ok current_dir datasetLabels siamese c0 lc h⟩

/-- Witness for C10: an all-benign training set aborts; one malignant sample
suffices to proceed. -/
theorem pos_weight_requires_malignant_witness :
    (classifier_train "base" [false] (0:ℕ) 0 []
      = Except.error "ZeroDivisionError: division by zero")
    ∧ (∃ st, classifier_train "base" [true] (0:ℕ) 0 [] = Except.ok st) := by
  exact ⟨(pos_weight_requires_malignant "base" [false] 0 0 []).1 (by decide),
    (pos_weight_requires_malignant "base" [true] 0 0 []).2 (by decide)⟩

/-- C6: an epoch whose collected labels (train or validation) are all one
class records `np.nan` (`none`) as that AUROC, and the loop still records an
entry for every epoch — no exception interrupts it. -/
theorem single_class_auroc_nan {P : Type} (sd : FPath) (siamese c0 : P) (pw : ℚ)
    (lc : List (ClsEpochData P)) (i : ℕ) (hi : i < lc.length) (c : Bool) :
    ((∀ b ∈ batchesLabels (lc.get ⟨i, hi⟩).trainBatches, b = c) →
      (classifierRun sd (classifierInit siamese c0 pw) lc).train_aurocs[i]? = some none)
    ∧ ((∀ b ∈ batchesLabels (lc.get ⟨i, hi⟩).valBatches, b = c) →
      (classifierRun sd (classifierInit siamese c0 pw) lc).val_aurocs[i]? = some none)
    ∧ (classifierRun sd (classifierInit siamese c0 pw) lc).train_aurocs.length = lc.length
    ∧ (classifierRun sd (classifierInit siamese c0 pw) lc).val_aurocs.length = lc.length := by
  obtain ⟨-, -, hta, hva, -, -⟩ :=
    classifierRun_histories sd (classifierInit siamese c0 pw) lc
  refine ⟨?_, ?_, ?_, ?_⟩
  · intro hall
    rw [hta]
    simp only [classifierInit, List.nil_append, List.getElem?_map,
      List.getElem?_eq_getElem hi]
    simpa using (aurocAndReport_single_class Split.train
      (batchesLabels (lc.get ⟨i, hi⟩).trainBatches)
      (batchesProbs (lc.get ⟨i, hi⟩).trainBatches) c hall).1
  · intro hall
    rw [hva]
    simp only [classifierInit, List.nil_append, List.getElem?_map,
      List.getElem?_eq_getElem hi]
    simpa [valAurocOf] using (aurocAndReport_single_class Split.val
      (batchesLabels (lc.get ⟨i, hi⟩).valBatches)
      (batchesProbs (lc.get ⟨i, hi⟩).valBatches) c hall).1
  · rw [hta]; simp [classifierInit]
  · rw [hva]; simp [classifierInit]

/-- Witness for C6: a one-epoch run whose train and validation labels are
all malignant records `nan` for both AUROCs. -/
theorem single_class_auroc_nan_witness :
    ((classifierRun "m" (classifierInit (0:ℕ) 0 1)
        [⟨[⟨[true, true], [1/2, 1/2], 1⟩], [⟨[true], [1/2], 1⟩], 3⟩]).train_aurocs[0]?
      = some none)
    ∧ ((classifierRun "m" (classifierInit (0:ℕ) 0 1)
        [⟨[⟨[true, true], [1/2, 1/2], 1⟩], [⟨[true], [1/2], 1⟩], 3⟩]).val_aurocs[0]?
      = some none) := by
  obtain ⟨h1, h2, -, -⟩ := single_class_auroc_nan "m" (0:ℕ) 0 1
    [⟨[⟨[true, true], [1/2, 1/2], 1⟩], [⟨[true], [1/2], 1⟩], 3⟩] 0 (by decide) true
  exact ⟨h1 (by decide), h2 (by decide)⟩

/-- C9: an epoch whose validation AUROC is `np.nan` never saves the best
checkpoint: the NaN comparison is false, so the file and the best-AUROC
record are unchanged, and any later finite AUROC is compared against the
pre-NaN record. -/
theorem nan_epoch_never_best {P : Type} (sd : FPath) (s : ClsState P)
    (d : ClsEpochData P) (h : valAurocOf d = none) :
    ((classifierEpochStep sd s d).2 = [])
    ∧ ((classifierEpochStep sd s d).1.best_auroc = s.best_auroc)
    ∧ ((classifierEpochStep sd s d).1.files = s.files) := by
  have h2 : (aurocAndReport Split.val (batchesLabels d.valBatches)
      (batchesProbs d.valBatches)).1 = none := h
  have hgt : pyGtNan (aurocAndReport Split.val (batchesLabels d.valBatches)
      (batchesProbs d.valBatches)).1 s.best_auroc = false := by
    rw [h2]; rfl
  refine ⟨?_, ?_, ?_⟩ <;> simp [classifierEpochStep, hgt, h2, pyGtNan]

/-- Witness for C9: a single-class validation epoch leaves the best record
and the filesystem untouched. -/
theorem nan_epoch_never_best_witness :
    ((classifierEpochStep "m" (classifierInit (0:ℕ) 0 1)
        ⟨[⟨[true, false], [3/4, 1/4], 1⟩], [⟨[true], [1/2], 1⟩], 3⟩).2 = [])
    ∧ ((classifierEpochStep "m" (classifierInit (0:ℕ) 0 1)
        ⟨[⟨[true, false], [3/4, 1/4], 1⟩], [⟨[true], [1/2], 1⟩], 3⟩).1.best_auroc
      = (classifierInit (0:ℕ) 0 1).best_auroc) := by
  obtain ⟨h1, h2, -⟩ := nan_epoch_never_best "m" (classifierInit (0:ℕ) 0 1)
    ⟨[⟨[true, false], [3/4, 1/4], 1⟩], [⟨[true], [1/2], 1⟩], 3⟩
    ((aurocAndReport_single_class Split.val [true] [1/2] true (by decide)).1)
  exact ⟨h1, h2⟩

/-- The events of the shared AUROC/report `try` block are report prints for
its own split only. -/
theorem aurocAndReport_events (sp : Split) (labels : List Bool) (probs : List ℚ) :
    ∀ e ∈ (aurocAndReport sp labels probs).2,
      ∃ rep, e = TraceEvent.reportPrint sp rep := by
  cases hroc : roc_auc_score labels probs with
  | ok a =>
      intro e he
      simp [aurocAndReport, hroc] at he
      exact ⟨_, he⟩
  | error m =>
      intro e he
      simp [aurocAndReport, hroc] at he

/-- The `try` block prints a report exactly when both classes occur in the
collected labels (the condition under which `roc_auc_score` succeeds). -/
theorem aurocAndReport_report_iff (sp : Split) (labels : List Bool)
    (probs : List ℚ) :
    (∃ rep, TraceEvent.reportPrint sp rep ∈ (aurocAndReport sp labels probs).2)
      ↔ (true ∈ labels ∧ false ∈ labels) := by
  by_cases h : true ∈ labels ∧ false ∈ labels
  · simp [aurocAndReport, roc_auc_score, h]
  · simp [aurocAndReport, roc_auc_score, h]

/-- When the `try` block prints a report, it is the classification report of
the collected labels against the probabilities thresholded at `0.5`. -/
theorem aurocAndReport_report_eq (sp : Split) (labels : List Bool)
    (probs : List ℚ) (rep : ClsReport)
    (h : TraceEvent.reportPrint sp rep ∈ (aurocAndReport sp labels probs).2) :
    rep = classification_report labels (probs.map (fun p => decide ((1:ℚ)/2 ≤ p))) := by
  cases hroc : roc_auc_score labels probs with
  | ok a =>
      simp [aurocAndReport, hroc] at h
      rw [h]
      norm_num
  | error m =>
      simp [aurocAndReport, hroc] at h

/-- A training-split report occurs among an epoch's events exactly when it
occurs in the training `try` block's output. -/
theorem mem_clsEpochEvents_train_iff {P : Type} (d : ClsEpochData P)
    (rep : ClsReport) :
    TraceEvent.reportPrint Split.train rep ∈ clsEpochEvents d
      ↔ TraceEvent.reportPrint Split.train rep
          ∈ (aurocAndReport Split.train (batchesLabels d.trainBatches)
              (batchesProbs d.trainBatches)).2 := by
  unfold clsEpochEvents
  simp only [List.mem_append]
  constructor
  · rintro (((h | h) | h) | h)
    · exfalso
      rcases List.mem_map.mp h with ⟨x, -, he⟩
      exact TraceEvent.noConfusion he
    · exact h
    · exfalso
      rcases List.mem_map.mp h with ⟨x, -, he⟩
      exact TraceEvent.noConfusion he
    · exfalso
      rcases aurocAndReport_events Split.val _ _ _ h with ⟨rep2, he⟩
      have : Split.train = Split.val := by injection he
      exact Split.noConfusion this
  · intro h
    exact Or.inl (Or.inl (Or.inr h))

/-- A validation-split report occurs among an epoch's events exactly when it
occurs in the validation `try` block's output. -/
theorem mem_clsEpochEvents_val_iff {P : Type} (d : ClsEpochData P)
    (rep : ClsReport) :
    TraceEvent.reportPrint Split.val rep ∈ clsEpochEvents d
      ↔ TraceEvent.reportPrint Split.val rep
          ∈ (aurocAndReport Split.val (batchesLabels d.valBatches)
              (batchesProbs d.valBatches)).2 := by
  unfold clsEpochEvents
  simp only [List.mem_append]
  constructor
  · rintro (((h | h) | h) | h)
    · exfalso
      rcases List.mem_map.mp h with ⟨x, -, he⟩
      exact TraceEvent.noConfusion he
    · exfalso
      rcases aurocAndReport_events Split.train _ _ _ h with ⟨rep2, he⟩
      have : Split.val = Split.train := by injection he
      exact Split.noConfusion this
    · exfalso
      rcases List.mem_map.mp h with ⟨x, -, he⟩
      exact TraceEvent.noConfusion he
    · exact h
  · intro h
    exact Or.inr h

/-- C7 counterexample: a concrete one-epoch run whose training labels are
all one class prints no training-split classification report, so a report
is not printed on every epoch for both splits. -/
theorem classifier_report_every_epoch_cex :
    ¬ ∃ rep, TraceEvent.reportPrint Split.train rep
        ∈ (classifierRun "m" (classifierInit (0:ℕ) 0 1)
            [⟨[⟨[true], [1/2], 1⟩], [⟨[true, false], [3/4, 1/4], 1⟩], 3⟩]).events := by
  rintro ⟨rep, hmem⟩
  have hev := (classifierRun_histories "m" (classifierInit (0:ℕ) 0 1)
      [⟨[⟨[true], [1/2], 1⟩], [⟨[true, false], [3/4, 1/4], 1⟩], 3⟩]).2.2.2.2.2
  rw [hev] at hmem
  simp only [classifierInit, List.nil_append, List.map_cons, List.map_nil,
    List.flatten_cons, List.flatten_nil, List.append_nil] at hmem
  have := (mem_clsEpochEvents_train_iff
      (⟨[⟨[true], [1/2], 1⟩], [⟨[true, false], [3/4, 1/4], 1⟩], 3⟩ : ClsEpochData ℕ)
      rep).mp hmem
  rw [(aurocAndReport_single_class Split.train _ _ true (by decide)).2] at this
  exact List.not_mem_nil _ this

/-- C7 amended: the per-class precision/recall/F1 report is printed for a
split in an epoch if and only if that split's collected labels contain both
classes (the same condition under which the AUROC computation succeeds): on
a single-class split the `except ValueError` path skips the report along
with the AUROC.  When printed, it is the classification report of the
collected labels against the `0.5`-thresholded probabilities, whose
per-class precision and recall report zero-division cases as zero. -/
theorem classifier_report_iff_both_classes {P : Type} (sd : FPath)
    (s : ClsState P) (d : ClsEpochData P) :
    ((classifierEpochStep sd s d).1.events = s.events ++ clsEpochEvents d)
    ∧ ((∃ rep, TraceEvent.reportPrint Split.train rep ∈ clsEpochEvents d)
        ↔ (true ∈ batchesLabels d.trainBatches ∧ false ∈ batchesLabels d.trainBatches))
    ∧ ((∃ rep, TraceEvent.reportPrint Split.val rep ∈ clsEpochEvents d)
        ↔ (true ∈ batchesLabels d.valBatches ∧ false ∈ batchesLabels d.valBatches))
    ∧ (∀ rep, TraceEvent.reportPrint Split.train rep ∈ clsEpochEvents d →
        rep = classification_report (batchesLabels d.trainBatches)
          ((batchesProbs d.trainBatches).map (fun p => decide ((1:ℚ)/2 ≤ p))))
    ∧ (∀ rep, TraceEvent.reportPrint Split.val rep ∈ clsEpochEvents d →
        rep = classification_report (batchesLabels d.valBatches)
          ((batchesProbs d.valBatches).map (fun p => decide ((1:ℚ)/2 ≤ p))))
    ∧ (∀ y pred : List Bool, ∀ c : Bool,
        (pred.count c = 0 → precisionZ y pred c = 0)
        ∧ (y.count c = 0 → recallZ y pred c = 0)) := by
  refine ⟨?_, ?_, ?_, ?_, ?_, ?_⟩
  · simp [classifierEpochStep, optimizerApply]
  · rw [show (∃ rep, TraceEvent.reportPrint Split.train rep ∈ clsEpochEvents d)
        ↔ ∃ rep, TraceEvent.reportPrint Split.train rep
            ∈ (aurocAndReport Split.train (batchesLabels d.trainBatches)
                (batchesProbs d.trainBatches)).2 from
      exists_congr (fun rep => mem_clsEpochEvents_train_iff d rep)]
    exact aurocAndReport_report_iff Split.train _ _
  · rw [show (∃ rep, TraceEvent.reportPrint Split.val rep ∈ clsEpochEvents d)
        ↔ ∃ rep, TraceEvent.reportPrint Split.val rep
            ∈ (aurocAndReport Split.val (batchesLabels d.valBatches)
                (batchesProbs d.valBatches)).2 from
      exists_congr (fun rep => mem_clsEpochEvents_val_iff d rep)]
    exact aurocAndReport_report_iff Split.val _ _
  · intro rep h
    exact aurocAndReport_report_eq Split.train _ _ rep
      ((mem_clsEpochEvents_train_iff d rep).mp h)
  · intro rep h
    exact aurocAndReport_report_eq Split.val _ _ rep
      ((mem_clsEpochEvents_val_iff d rep).mp h)
  · intro y pred c
    constructor
    · intro h
      simp [precisionZ, h]
    · intro h
      simp [recallZ, h]

/-- Witness for the amended C7: an epoch with two-class validation labels
prints a validation report, its single-class training split prints none, and
a zero-division precision is reported as zero. -/
theorem classifier_report_iff_both_classes_witness :
    (∃ rep, TraceEvent.reportPrint Split.val rep
        ∈ clsEpochEvents
            (⟨[⟨[true], [1/2], 1⟩], [⟨[true, false], [3/4, 1/4], 1⟩], 3⟩ : ClsEpochData ℕ))
    ∧ (¬ ∃ rep, TraceEvent.reportPrint Split.train rep
        ∈ clsEpochEvents
            (⟨[⟨[true], [1/2], 1⟩], [⟨[true, false], [3/4, 1/4], 1⟩], 3⟩ : ClsEpochData ℕ))
    ∧ precisionZ [true] [false] true = 0 := by
  obtain ⟨-, htr, hval, -, -, hz⟩ := classifier_report_iff_both_classes "m"
    (classifierInit (0:ℕ) 0 1)
    (⟨[⟨[true], [1/2], 1⟩], [⟨[true, false], [3/4, 1/4], 1⟩], 3⟩ : ClsEpochData ℕ)
  refine ⟨hval.mpr ⟨by decide, by decide⟩, ?_, (hz [true] [false] true).1 (by decide)⟩
  intro hex
  have hb := htr.mp hex
  revert hb
  decide

/-- Parameters are written only through the optimizer's registration, so
every siamese forward pass an epoch performs is inside `torch.no_grad()`. -/
theorem clsEpochEvents_embed_noGrad {P : Type} (d : ClsEpochData P) (sp : Split)
    (b : Bool) (h : TraceEvent.embedCall sp b ∈ clsEpochEvents d) : b = true := by
  unfold clsEpochEvents at h
  simp only [List.mem_append] at h
  rcases h with (((h | h) | h) | h)
  · rcases List.mem_map.mp h with ⟨x, -, he⟩
    injection he with h1 h2
    exact h2.symm
  · rcases aurocAndReport_events Split.train _ _ _ h with ⟨rep, he⟩
    exact TraceEvent.noConfusion he
  · rcases List.mem_map.mp h with ⟨x, -, he⟩
    injection he with h1 h2
    exact h2.symm
  · rcases aurocAndReport_events Split.val _ _ _ h with ⟨rep, he⟩
    exact TraceEvent.noConfusion he

/-- C8: throughout `classifier_train` the frozen siamese model is never
updated: it is in `eval` mode from before the first epoch on, its parameters
after the run equal the parameters passed in (and at every epoch boundary),
only the classifier's parameters are registered with the optimizer, and
every siamese forward pass happens inside a `torch.no_grad()` context. -/
theorem siamese_frozen_in_classifier_train {P : Type} (current_dir : FPath)
    (datasetLabels : List Bool) (siamese c0 : P) (lc : List (ClsEpochData P))
    (hm : datasetLabels.count true ≠ 0) :
    ∃ st, classifier_train current_dir datasetLabels siamese c0 lc = Except.ok st
      ∧ st.siameseParams = siamese
      ∧ st.siameseMode = NNMode.evalMode
      ∧ st.optimizerOver = ParamRef.classifierRef
      ∧ (∀ i : ℕ, (classifierRun (osPathJoin current_dir "models")
            (classifierInit siamese c0
              ((datasetLabels.count false : ℚ) / (datasetLabels.count true : ℚ)))
            (lc.take i)).siameseParams = siamese
          ∧ (classifierRun (osPathJoin current_dir "models")
              (classifierInit siamese c0
                ((datasetLabels.count false : ℚ) / (datasetLabels.count true : ℚ)))
              (lc.take i)).siameseMode = NNMode.evalMode)
      ∧ (∀ sp b, TraceEvent.embedCall sp b ∈ st.events → b = true) := by
  refine ⟨_, classifier_train_ok current_dir datasetLabels siamese c0 lc hm,
    ?_, ?_, ?_, ?_, ?_⟩
  · exact (classifierRun_frame _ _ lc rfl).2.2.1
  · exact (classifierRun_frame _ _ lc rfl).2.2.2
  · exact (classifierRun_frame _ _ lc rfl).1
  · intro i
    exact ⟨(classifierRun_frame _ _ (lc.take i) rfl).2.2.1,
      (classifierRun_frame _ _ (lc.take i) rfl).2.2.2⟩
  · intro sp b hmem
    have hmem2 : TraceEvent.embedCall sp b
        ∈ (classifierRun (osPathJoin current_dir "models")
            (classifierInit siamese c0
              ((datasetLabels.count false : ℚ) / (datasetLabels.count true : ℚ)))
            lc).events := hmem
    have hev := (classifierRun_histories (osPathJoin current_dir "models")
        (classifierInit siamese c0
          ((datasetLabels.count false : ℚ) / (datasetLabels.count true : ℚ))) lc).2.2.2.2.2
    rw [hev] at hmem2
    simp only [classifierInit, List.nil_append] at hmem2
    rcases List.mem_flatten.mp hmem2 with ⟨l2, hl2, hel⟩
    rcases List.mem_map.mp hl2 with ⟨d2, -, hd2⟩
    exact clsEpochEvents_embed_noGrad d2 sp b (hd2 ▸ hel)

/-- Witness for C8: a concrete run returns the siamese parameters it was
handed, still in `eval` mode. -/
theorem siamese_frozen_in_classifier_train_witness :
    ∃ st, classifier_train "base" [true] (37:ℕ) 0
        [⟨[⟨[true], [1], 1⟩], [⟨[true], [1], 1⟩], 5⟩] = Except.ok st
      ∧ st.siameseParams = 37 ∧ st.siameseMode = NNMode.evalMode := by
  obtain ⟨st, hret, hp, hmode, -, -, -⟩ :=
    siamese_frozen_in_classifier_train "base" [true] (37:ℕ) 0
      [⟨[⟨[true], [1], 1⟩], [⟨[true], [1], 1⟩], 5⟩] (by decide)
  exact ⟨st, hret, hp, hmode⟩
